import Mathlib

/-!
Shallow embedding of src/model/optimization.py: the AdamWeightDecayOptimizer
class, the layer-wise learning-rate map built by _get_layer_lrs, and the
gradient-accumulation driver graph built by create_optimizer.

Conventions of the embedding:
  * A scalar tensor value is modelled by the type V below: some q is a
    finite float, idealized as a rational; none stands for a non-finite
    float (NaN or an infinity).  Every arithmetic operation propagates
    non-finiteness, matching IEEE NaN/Inf propagation through the tensor
    engine.  Parameters are modelled as scalar tensors; nothing in the
    verified claims depends on tensor shape.
  * The engine primitive tf.sqrt has no exact rational counterpart, so the
    development is parameterized by a function sq standing for the square
    root on nonnegative finite inputs; tf.sqrt of a negative number is NaN,
    hence non-finite in the model.
  * Graph construction that can raise a Python exception is modelled with
    Except String; a successfully built training op is a step function on
    an explicit driver state.
  * Collective operations of a single-worker horovod context are identities
    (hvd.allreduce of a value over one worker returns the value itself);
    the embedding models one worker.
  * When use_fp16 is set, source line 89 wraps the optimizer in the
    tf_contrib mixed-precision LossScaleOptimizer; per the library contract
    of that wrapper, its apply_gradients checks every incoming gradient for
    finiteness and skips the wrapped Adam assignments entirely when any is
    non-finite (its loss-scale manager bookkeeping has no effect on the
    quantities verified here and is not modelled).  The TF1 variable store
    raises ValueError when tf.get_variable re-creates an existing variable,
    which the graph-construction model reproduces for the Adam slots.
-/

/-- A scalar tensor value: some q is a finite float, none is NaN or Inf. -/
abbrev V : Type := Option ℚ

/-- Addition; any non-finite operand poisons the result. -/
def vadd : V → V → V
  | some a, some b => some (a + b)
  | _, _ => none

/-- Multiplication; any non-finite operand poisons the result. -/
def vmul : V → V → V
  | some a, some b => some (a * b)
  | _, _ => none

/-- Subtraction; any non-finite operand poisons the result. -/
def vsub : V → V → V
  | some a, some b => some (a - b)
  | _, _ => none

/-- Division; division by zero yields a non-finite float, and any
non-finite operand poisons the result. -/
def vdiv : V → V → V
  | some a, some b => if b = 0 then none else some (a / b)
  | _, _ => none

/-- Maximum; NaN propagates through tf.maximum in this model. -/
def vmax : V → V → V
  | some a, some b => some (max a b)
  | _, _ => none

/-- tf.sqrt: NaN on negative input, engine square root sq otherwise. -/
def vsqrt (sq : ℚ → ℚ) : V → V
  | some a => if a < 0 then none else some (sq a)
  | none => none

/-- tf.is_finite on a scalar value. -/
def visFinite : V → Bool
  | some _ => true
  | none => false

/-- Whether p is a prefix of the second character list. -/
def isPrefixB : List Char → List Char → Bool
  | [], _ => true
  | _ :: _, [] => false
  | a :: as, b :: bs => a == b && isPrefixB as bs

/-- Whether p occurs as a contiguous substring of the second list. -/
def isSubB (p : List Char) : List Char → Bool
  | [] => isPrefixB p []
  | l@(_ :: t) => isPrefixB p l || isSubB p t

/-- The Python test key in name, and re.search for the literal patterns
used by this file (none of them contains a regex metacharacter), are both
substring containment. -/
def containsSub (pat s : String) : Bool := isSubB pat.toList s.toList

/-- AdamWeightDecayOptimizer._get_variable_name: strip a trailing
colon-digits qualifier, the effect of re.match on the pattern
caret(.*):backslash-d+dollar with a greedy group. -/
def get_variable_name (param_name : String) : String :=
  let cs := param_name.toList.reverse
  let ds := cs.takeWhile Char.isDigit
  let rest := cs.drop ds.length
  match ds, rest with
  | _ :: _, c :: r => if c == ':' then String.mk r.reverse else param_name
  | _, _ => param_name

/-- The learning rate held by the optimizer: either one scalar schedule or
a Python dict from name-substring key to a per-group scalar schedule,
modelled as an insertion-ordered association list (Python dicts iterate in
insertion order). -/
inductive LRSpec where
  | scalar : ℚ → LRSpec
  | perGroup : List (String × ℚ) → LRSpec
deriving DecidableEq

/-- The configuration fields of AdamWeightDecayOptimizer.__init__, with
the constructor defaults; exclude_from_weight_decay None is the empty
list. -/
structure AdamWeightDecayOptimizer where
  learning_rate : LRSpec
  weight_decay_rate : ℚ := 0
  beta_1 : ℚ := 9 / 10
  beta_2 : ℚ := 999 / 1000
  epsilon : ℚ := 1 / 1000000
  exclude_from_weight_decay : List String := []
deriving DecidableEq

/-- AdamWeightDecayOptimizer._do_use_weight_decay: false when the decay
rate is zero (Python falsiness of 0.0) or when any exclusion pattern
occurs in the stripped parameter name. -/
def do_use_weight_decay (opt : AdamWeightDecayOptimizer) (param_name : String) : Bool :=
  if opt.weight_decay_rate = 0 then false
  else !(opt.exclude_from_weight_decay.any (fun r => containsSub r param_name))

/-- One trainable variable together with its lazily created Adam slots
param-base-name/adam_m and param-base-name/adam_v. -/
structure ParamState where
  name : String
  param : V
  m : V
  v : V
deriving DecidableEq

/-- The per-parameter body of AdamWeightDecayOptimizer._apply_gradients:
next_m, next_v, the update with optional decoupled weight decay, and
next_param = param - learning_rate * update. -/
def applyGradOne (sq : ℚ → ℚ) (opt : AdamWeightDecayOptimizer) (learning_rate : ℚ)
    (grad : V) (ps : ParamState) : ParamState :=
  let param_name := get_variable_name ps.name
  let next_m := vadd (vmul (some opt.beta_1) ps.m) (vmul (some (1 - opt.beta_1)) grad)
  let next_v := vadd (vmul (some opt.beta_2) ps.v) (vmul (some (1 - opt.beta_2)) (vmul grad grad))
  let update0 := vdiv next_m (vadd (vsqrt sq next_v) (some opt.epsilon))
  let update1 :=
    if 0 < opt.weight_decay_rate then
      if do_use_weight_decay opt param_name then
        vadd update0 (vmul (some opt.weight_decay_rate) ps.param)
      else update0
    else update0
  let next_param := vsub ps.param (vmul (some learning_rate) update1)
  { ps with param := next_param, m := next_m, v := next_v }

/-- AdamWeightDecayOptimizer._apply_gradients over a list of
gradient-variable pairs at one scalar learning rate.  Pairs whose Python
gradient object is absent were already filtered by the caller. -/
def apply_gradients_group (sq : ℚ → ℚ) (opt : AdamWeightDecayOptimizer) (learning_rate : ℚ)
    (pairs : List (V × ParamState)) : List ParamState :=
  pairs.map (fun gp => applyGradOne sq opt learning_rate gp.1 gp.2)

/-- Whether the raw variable name (not stripped of a colon qualifier, as
in the source test key in var.name) contains at least one dict key. -/
def matchesSomeKey (keys : List (String × ℚ)) (nm : String) : Bool :=
  keys.any (fun kv => containsSub kv.1 nm)

/-- The assignments built by AdamWeightDecayOptimizer.apply_gradients once
grouping has succeeded.  In the dict case the source appends each pair to
the bucket of every key occurring in the variable name and then runs
_apply_gradients once per bucket; the bucket of a key is therefore the
in-order sublist of pairs whose name contains that key.  The source
iterates buckets in first-insertion order while this model iterates them
in dict key order; the multiset of produced assignments is the same and
no verified claim depends on the bucket order.  These assignments exist
only when every Adam slot is created once; apply_gradients below guards
this with the TF1 variable-reuse error, and the driver uses this function
only for a build that already succeeded (trainable-variable names are
unique in a graph, so each slot is created once there). -/
def apply_gradients_total (sq : ℚ → ℚ) (opt : AdamWeightDecayOptimizer)
    (pairs : List (V × ParamState)) : List ParamState :=
  match opt.learning_rate with
  | .scalar lr => apply_gradients_group sq opt lr pairs
  | .perGroup keys =>
      (keys.map (fun kv =>
        apply_gradients_group sq opt kv.2
          (pairs.filter (fun gp => containsSub kv.1 gp.2.name)))).flatten

/-- The stripped slot base names in the order _apply_gradients processes
pairs in the dict case: bucket by bucket, and within a bucket in pair
order; tf.get_variable creates name/adam_m for each. -/
def processedNames (keys : List (String × ℚ)) (pairs : List (V × ParamState)) :
    List String :=
  (keys.map (fun kv =>
    (pairs.filter (fun gp => containsSub kv.1 gp.2.name)).map
      (fun gp => get_variable_name gp.2.name))).flatten

/-- The first name whose slot is created a second time, in processing
order; at that tf.get_variable call TF1 raises the variable-reuse
ValueError. -/
def firstRepeat (seen : List String) : List String → Option String
  | [] => none
  | n :: t => if n ∈ seen then some n else firstRepeat (n :: seen) t

/-- AdamWeightDecayOptimizer.apply_gradients as graph construction.  In
the dict case the grouping loop raises ValueError at the first variable
whose name contains no key, before any assignment is constructed; then
the buckets are processed, and the first pair whose stripped name already
had its adam_m slot created (a variable routed to a second bucket, or two
variables sharing a stripped name) raises the TF1 variable-reuse
ValueError; only when neither error fires are the grouped assignments
returned.  The scalar path performs the same slot creations in pair
order. -/
def apply_gradients (sq : ℚ → ℚ) (opt : AdamWeightDecayOptimizer)
    (pairs : List (V × ParamState)) : Except String (List ParamState) :=
  match opt.learning_rate with
  | .scalar lr =>
      match firstRepeat [] (pairs.map (fun gp => get_variable_name gp.2.name)) with
      | some nm => .error ("Variable " ++ nm ++ "/adam_m already exists")
      | none => .ok (apply_gradients_group sq opt lr pairs)
  | .perGroup keys =>
      match pairs.find? (fun gp => !(matchesSomeKey keys gp.2.name)) with
      | some gp => .error ("No learning rate specified for variable " ++ gp.2.name)
      | none =>
          match firstRepeat [] (processedNames keys pairs) with
          | some nm => .error ("Variable " ++ nm ++ "/adam_m already exists")
          | none => .ok (apply_gradients_total sq opt pairs)

/-- Sum of squares of a gradient list, the quantity under tf.global_norm. -/
def sumSqV : List V → V
  | [] => some 0
  | g :: t => vadd (vmul g g) (sumSqV t)

/-- tf.global_norm: the square root of the sum of squares. -/
def global_norm (sq : ℚ → ℚ) (grads : List V) : V :=
  vsqrt sq (sumSqV grads)

/-- The use_norm argument built at source lines 157-161 and 216-220: the
true global norm when this micro-step is finite, the constant 1.0
otherwise. -/
def chooseUseNorm (sq : ℚ → ℚ) (grads : List V) (all_are_finite : Bool) : V :=
  if all_are_finite then global_norm sq grads else some 1

/-- tf.clip_by_global_norm with an explicit use_norm: every entry is
scaled by clip_norm / max(use_norm, clip_norm). -/
def clip_by_global_norm (grads : List V) (clip_norm : ℚ) (use_norm : V) : List V :=
  grads.map (fun g => vmul g (vdiv (some clip_norm) (vmax use_norm (some clip_norm))))

/-- all_are_finite at source lines 136-144 and 206-209: under fp16 the
conjunction of tf.is_finite over every gradient, constant true under full
precision. -/
def all_are_finite_flag (use_fp16 : Bool) (grads : List V) : Bool :=
  if use_fp16 then grads.all visFinite else true

/-- Source line 98 computes gradients of loss * 1.0 / num_accumulation_steps;
differentiation is linear in the loss, so the per-variable gradients are
the raw loss gradients scaled by 1 / num_accumulation_steps.  Under fp16
the LossScaleOptimizer wrapper scales the loss up and the gradients back
down, the identity on values; with a DistributedOptimizer wrapper the
single-worker allreduce is also the identity. -/
def computeGrads (num_accumulation_steps : ℕ) (rawGrads : List V) : List V :=
  rawGrads.map (fun g => vmul g (some (1 / (num_accumulation_steps : ℚ))))

/-- The mutable graph variables threaded through one training step:
trainable parameters with their Adam slots, the accumulation buffers, the
local_step and batch_finite variables of the accumulation path, and the
global step. -/
structure DriverState where
  params : List ParamState
  accum : List V
  local_step : ℕ
  batch_finite : Bool
  global_step : ℕ
deriving DecidableEq

/-- The optimizer chain whose apply_gradients the driver invokes: when
use_fp16 is set, the chain wrapped at source line 89 by the tf_contrib
LossScaleOptimizer, whose apply_gradients skips the wrapped Adam
assignments entirely (leaving every parameter and both moments unchanged)
when any incoming gradient is non-finite, per that library component's
contract; with use_fp16 unset the bare AdamWeightDecayOptimizer
assignments always run.  The caller is a successfully built graph, so the
slot-creation of apply_gradients_total has already succeeded. -/
def wrapped_apply_gradients (sq : ℚ → ℚ) (opt : AdamWeightDecayOptimizer)
    (use_fp16 : Bool) (grads : List V) (params : List ParamState) : List ParamState :=
  if use_fp16 && !(grads.all visFinite) then params
  else apply_gradients_total sq opt (grads.zip params)

/-- One session run of the training op built by create_optimizer when
num_accumulation_steps > 1 (source lines 100-201): reset-or-advance
local_step, fold this micro-step finiteness into batch_finite,
overwrite-or-accumulate the clipped gradients, invoke the (possibly
loss-scale-wrapped) optimizer apply on the buffers exactly when the
post-transition local_step is a multiple of the accumulation count, and
advance global_step only when that update fires and the (single-worker
allreduced) batch_finite flag is true.  The apply at line 184 is invoked
whenever update_step holds; batch_finite gates only the global step
advance, while non-finite buffers are skipped inside the fp16 wrapper. -/
def driverStep (sq : ℚ → ℚ) (opt : AdamWeightDecayOptimizer) (use_fp16 : Bool)
    (num_accumulation_steps : ℕ) (st : DriverState) (rawGrads : List V) : DriverState :=
  let grads := computeGrads num_accumulation_steps rawGrads
  let reset : Bool := st.local_step % num_accumulation_steps == 0
  let local_step1 := if reset then 1 else st.local_step + 1
  let all_are_finite := all_are_finite_flag use_fp16 grads
  let batch_finite1 := if reset then (true && all_are_finite) else (st.batch_finite && all_are_finite)
  let clipped_grads := clip_by_global_norm grads 1 (chooseUseNorm sq grads all_are_finite)
  let accum1 := if reset then clipped_grads else List.zipWith vadd st.accum clipped_grads
  let update_step : Bool := local_step1 % num_accumulation_steps == 0
  let params1 := if update_step then wrapped_apply_gradients sq opt use_fp16 accum1 st.params
    else st.params
  let global_step1 := if update_step && batch_finite1 then st.global_step + 1 else st.global_step
  { params := params1, accum := accum1, local_step := local_step1,
    batch_finite := batch_finite1, global_step := global_step1 }

/-- One session run of the training op built by create_optimizer when
num_accumulation_steps == 1 (source lines 202-225): clip this step
gradients, invoke the (possibly loss-scale-wrapped) optimizer apply on
every step, and advance global_step exactly when this step is finite. -/
def simpleStep (sq : ℚ → ℚ) (opt : AdamWeightDecayOptimizer) (use_fp16 : Bool)
    (st : DriverState) (rawGrads : List V) : DriverState :=
  let grads := computeGrads 1 rawGrads
  let all_are_finite := all_are_finite_flag use_fp16 grads
  let clipped_grads := clip_by_global_norm grads 1 (chooseUseNorm sq grads all_are_finite)
  let params1 := wrapped_apply_gradients sq opt use_fp16 clipped_grads st.params
  let global_step1 := if all_are_finite then st.global_step + 1 else st.global_step
  { st with params := params1, global_step := global_step1 }

/-- The OrderedDict built by _get_layer_lrs: the two embedding keys at
depth 0 and the task-specific key at depth n_layers + 2, followed by one
key per encoder layer at depth layer + 1, in insertion order. -/
def key_to_depths (n_layers : ℕ) : List (String × ℕ) :=
  [("/embeddings/", 0), ("/embeddings_project/", 0), ("task_specific/", n_layers + 2)] ++
    (List.range n_layers).map (fun layer => ("encoder/layer_" ++ toString layer ++ "/", layer + 1))

/-- _get_layer_lrs: each key is mapped to
learning_rate * layer_decay ^ (n_layers + 2 - depth). -/
def get_layer_lrs (learning_rate : ℚ) (layer_decay : ℚ) (n_layers : ℕ) :
    List (String × ℚ) :=
  (key_to_depths n_layers).map
    (fun kd => (kd.1, learning_rate * layer_decay ^ (n_layers + 2 - kd.2)))

/-- The optimizer object constructed at source lines 67-74: the given
learning rate, the given weight decay rate, and the fixed defaults
beta_1 = 0.9, beta_2 = 0.999, epsilon = 1e-6 with the standard exclusion
patterns. -/
def mkCreateOptimizerAdam (lr : LRSpec) (wd : ℚ) : AdamWeightDecayOptimizer :=
  { learning_rate := lr
    weight_decay_rate := wd
    beta_1 := 9 / 10
    beta_2 := 999 / 1000
    epsilon := 1 / 1000000
    exclude_from_weight_decay := ["LayerNorm", "layer_norm", "bias"] }

/-- Iterating the accumulation driver k micro-steps, each presenting the
same single-parameter raw gradient q. -/
def runConstDriver (sq : ℚ → ℚ) (opt : AdamWeightDecayOptimizer) (use_fp16 : Bool)
    (n : ℕ) (q : ℚ) (st : DriverState) : ℕ → DriverState
  | 0 => st
  | k + 1 => driverStep sq opt use_fp16 n (runConstDriver sq opt use_fp16 n q st k) [some q]

/-! ## Helper lemmas -/

/-- Negation of a list-any is the all of pointwise negations. -/
theorem not_any_eq_all_not {α : Type} (l : List α) (f : α → Bool) :
    (!(l.any f)) = l.all (fun x => !(f x)) := by
  induction l with
  | nil => rfl
  | cons a t ih => simp [List.any_cons, List.all_cons, Bool.not_or, ih]

/-- Evaluation of one per-parameter Adam update on finite inputs: the
moment recursions, the epsilon-shifted division, and the optional
decoupled weight-decay term, exactly as _apply_gradients computes them. -/
theorem applyGradOne_eval (sq : ℚ → ℚ) (opt : AdamWeightDecayOptimizer)
    (lr p m0 v0 g : ℚ) (nm : String)
    (hv : 0 ≤ opt.beta_2 * v0 + (1 - opt.beta_2) * (g * g))
    (hd : sq (opt.beta_2 * v0 + (1 - opt.beta_2) * (g * g)) + opt.epsilon ≠ 0) :
    applyGradOne sq opt lr (some g) ⟨nm, some p, some m0, some v0⟩ =
      { name := nm
        param := some (p - lr * ((opt.beta_1 * m0 + (1 - opt.beta_1) * g) /
            (sq (opt.beta_2 * v0 + (1 - opt.beta_2) * (g * g)) + opt.epsilon) +
            (if 0 < opt.weight_decay_rate ∧
                do_use_weight_decay opt (get_variable_name nm) = true then
              opt.weight_decay_rate * p
            else 0)))
        m := some (opt.beta_1 * m0 + (1 - opt.beta_1) * g)
        v := some (opt.beta_2 * v0 + (1 - opt.beta_2) * (g * g)) } := by
  have hV := not_lt.mpr hv
  by_cases hw : 0 < opt.weight_decay_rate
  · by_cases hu : do_use_weight_decay opt (get_variable_name nm) = true
    · simp [applyGradOne, vmul, vadd, vsqrt, vdiv, vsub, hV, hw, hu, hd]
    · simp [applyGradOne, vmul, vadd, vsqrt, vdiv, vsub, hV, hw, hu, hd]
  · simp [applyGradOne, vmul, vadd, vsqrt, vdiv, vsub, hV, hw, hd]

/-- Under a positive decay rate, _do_use_weight_decay is the statement
that no exclusion pattern occurs in the parameter name. -/
theorem do_use_weight_decay_pos (opt : AdamWeightDecayOptimizer) (n : String)
    (h : 0 < opt.weight_decay_rate) :
    do_use_weight_decay opt n =
      opt.exclude_from_weight_decay.all (fun r => !(containsSub r n)) := by
  unfold do_use_weight_decay
  rw [if_neg (ne_of_gt h)]
  exact not_any_eq_all_not _ _

/-- A concrete stand-in for the engine square root, used to instantiate
witnesses; no verified statement depends on its values. -/
def sq0 : ℚ → ℚ := fun _ => 0

/-! ## Claims -/

/-- C3: one apply-gradients step of AdamWeightDecayOptimizer produces
m1 = beta_1 * m + (1 - beta_1) * g, v1 = beta_2 * v + (1 - beta_2) * g^2,
the update m1 / (sqrt v1 + epsilon) plus weight_decay_rate * param_value
exactly when weight_decay_rate > 0 and the parameter is not excluded, and
the new value param_value - learning_rate * update; no bias-correction
factor appears in m1 or v1. -/
theorem claim_C3 (sq : ℚ → ℚ) (opt : AdamWeightDecayOptimizer)
    (lr p m0 v0 g : ℚ) (nm : String)
    (hv : 0 ≤ opt.beta_2 * v0 + (1 - opt.beta_2) * (g * g))
    (hd : sq (opt.beta_2 * v0 + (1 - opt.beta_2) * (g * g)) + opt.epsilon ≠ 0) :
    applyGradOne sq opt lr (some g) ⟨nm, some p, some m0, some v0⟩ =
      { name := nm
        param := some (p - lr * ((opt.beta_1 * m0 + (1 - opt.beta_1) * g) /
            (sq (opt.beta_2 * v0 + (1 - opt.beta_2) * (g * g)) + opt.epsilon) +
            (if 0 < opt.weight_decay_rate ∧
                (opt.exclude_from_weight_decay.all
                  (fun r => !(containsSub r (get_variable_name nm)))) = true then
              opt.weight_decay_rate * p
            else 0)))
        m := some (opt.beta_1 * m0 + (1 - opt.beta_1) * g)
        v := some (opt.beta_2 * v0 + (1 - opt.beta_2) * (g * g)) } := by
  rw [applyGradOne_eval sq opt lr p m0 v0 g nm hv hd]
  by_cases hw : 0 < opt.weight_decay_rate
  · rw [do_use_weight_decay_pos opt _ hw]
  · simp [hw]

/-- Witness for C3 at a concrete configuration. -/
theorem claim_C3_witness :
    applyGradOne sq0 ⟨.scalar 1, 1/100, 9/10, 999/1000, 1/1000000, ["bias"]⟩ 1 (some 1)
        ⟨"w", some 1, some 0, some 0⟩ =
      { name := "w"
        param := some (1 - 1 * ((9/10 * 0 + (1 - 9/10) * 1) /
            (sq0 (999/1000 * 0 + (1 - 999/1000) * (1 * 1)) + 1/1000000) +
            (if 0 < (1/100 : ℚ) ∧
                ((["bias"] : List String).all
                  (fun r => !(containsSub r (get_variable_name "w")))) = true then
              (1/100 : ℚ) * 1
            else 0)))
        m := some (9/10 * 0 + (1 - 9/10) * 1)
        v := some (999/1000 * 0 + (1 - 999/1000) * (1 * 1)) } :=
  claim_C3 sq0 ⟨.scalar 1, 1/100, 9/10, 999/1000, 1/1000000, ["bias"]⟩ 1 1 0 0 1 "w"
    (by norm_num) (by norm_num [sq0])

/-- C8: with a positive decay rate and the default exclusion patterns, the
parameter encoder/layer_0/LayerNorm/beta receives no weight-decay
contribution, encoder/layer_0/dense/kernel receives the full
weight_decay_rate * param_value term, and with weight_decay_rate = 0 the
decay term is disabled for every parameter name. -/
theorem claim_C8 (sq : ℚ → ℚ) (lr w p m0 v0 g : ℚ) (hw : 0 < w)
    (hv : 0 ≤ 999/1000 * v0 + (1 - 999/1000) * (g * g))
    (hd : sq (999/1000 * v0 + (1 - 999/1000) * (g * g)) + 1/1000000 ≠ 0) :
    (applyGradOne sq (mkCreateOptimizerAdam (.scalar lr) w) lr (some g)
        ⟨"encoder/layer_0/LayerNorm/beta", some p, some m0, some v0⟩).param
      = some (p - lr * ((9/10 * m0 + (1 - 9/10) * g) /
          (sq (999/1000 * v0 + (1 - 999/1000) * (g * g)) + 1/1000000))) ∧
    (applyGradOne sq (mkCreateOptimizerAdam (.scalar lr) w) lr (some g)
        ⟨"encoder/layer_0/dense/kernel", some p, some m0, some v0⟩).param
      = some (p - lr * ((9/10 * m0 + (1 - 9/10) * g) /
          (sq (999/1000 * v0 + (1 - 999/1000) * (g * g)) + 1/1000000) + w * p)) ∧
    ∀ nm : String,
      (applyGradOne sq (mkCreateOptimizerAdam (.scalar lr) 0) lr (some g)
          ⟨nm, some p, some m0, some v0⟩).param
        = some (p - lr * ((9/10 * m0 + (1 - 9/10) * g) /
            (sq (999/1000 * v0 + (1 - 999/1000) * (g * g)) + 1/1000000))) := by
  refine ⟨?_, ?_, ?_⟩
  · rw [applyGradOne_eval sq (mkCreateOptimizerAdam (.scalar lr) w) lr p m0 v0 g
      "encoder/layer_0/LayerNorm/beta" hv hd]
    have hdu : do_use_weight_decay (mkCreateOptimizerAdam (.scalar lr) w)
        (get_variable_name "encoder/layer_0/LayerNorm/beta") = false := by
      simp only [do_use_weight_decay, mkCreateOptimizerAdam]
      split
      · rfl
      · decide
    simp only [hdu]
    simp [mkCreateOptimizerAdam]
  · rw [applyGradOne_eval sq (mkCreateOptimizerAdam (.scalar lr) w) lr p m0 v0 g
      "encoder/layer_0/dense/kernel" hv hd]
    have hdu : do_use_weight_decay (mkCreateOptimizerAdam (.scalar lr) w)
        (get_variable_name "encoder/layer_0/dense/kernel") = true := by
      simp only [do_use_weight_decay, mkCreateOptimizerAdam]
      rw [if_neg (ne_of_gt hw)]
      decide
    simp only [hdu]
    have hwm : 0 < (mkCreateOptimizerAdam (.scalar lr) w).weight_decay_rate := hw
    simp only [hwm, and_true, if_pos, true_and]
    simp [mkCreateOptimizerAdam]
  · intro nm
    rw [applyGradOne_eval sq (mkCreateOptimizerAdam (.scalar lr) 0) lr p m0 v0 g nm hv hd]
    simp [mkCreateOptimizerAdam]

/-- Witness for C8 at a concrete configuration. -/
theorem claim_C8_witness :
    (applyGradOne sq0 (mkCreateOptimizerAdam (.scalar 1) (1/100)) 1 (some 1)
        ⟨"encoder/layer_0/LayerNorm/beta", some 1, some 0, some 0⟩).param
      = some (1 - 1 * ((9/10 * 0 + (1 - 9/10) * 1) /
          (sq0 (999/1000 * 0 + (1 - 999/1000) * (1 * 1)) + 1/1000000))) ∧
    (applyGradOne sq0 (mkCreateOptimizerAdam (.scalar 1) (1/100)) 1 (some 1)
        ⟨"encoder/layer_0/dense/kernel", some 1, some 0, some 0⟩).param
      = some (1 - 1 * ((9/10 * 0 + (1 - 9/10) * 1) /
          (sq0 (999/1000 * 0 + (1 - 999/1000) * (1 * 1)) + 1/1000000) + (1/100) * 1)) ∧
    (applyGradOne sq0 (mkCreateOptimizerAdam (.scalar 1) 0) 1 (some 1)
        ⟨"x", some 1, some 0, some 0⟩).param
      = some (1 - 1 * ((9/10 * 0 + (1 - 9/10) * 1) /
          (sq0 (999/1000 * 0 + (1 - 999/1000) * (1 * 1)) + 1/1000000))) := by
  have h := claim_C8 sq0 1 (1/100) 1 0 0 1 (by norm_num) (by norm_num) (by norm_num [sq0])
  exact ⟨h.1, h.2.1, h.2.2 "x"⟩

/-- C7: with 12 layers and decay power 4/5, the layer-wise map assigns the
embedding groups base * (4/5)^14, encoder layer 0 base * (4/5)^13, encoder
layer i base * (4/5)^(13 - i), and the task-specific group base; in
general a group at depth d receives base * decay^(n_layers + 2 - d). -/
theorem claim_C7 (base : ℚ) :
    List.lookup "/embeddings/" (get_layer_lrs base (4/5) 12) = some (base * (4/5) ^ 14) ∧
    List.lookup "/embeddings_project/" (get_layer_lrs base (4/5) 12)
      = some (base * (4/5) ^ 14) ∧
    List.lookup "encoder/layer_0/" (get_layer_lrs base (4/5) 12)
      = some (base * (4/5) ^ 13) ∧
    (∀ i : ℕ, i < 12 →
      List.lookup ("encoder/layer_" ++ toString i ++ "/") (get_layer_lrs base (4/5) 12)
        = some (base * (4/5) ^ (13 - i))) ∧
    List.lookup "task_specific/" (get_layer_lrs base (4/5) 12) = some (base * (4/5) ^ 0) ∧
    base * (4/5 : ℚ) ^ 0 = base ∧
    (∀ (lrq decay : ℚ) (n : ℕ) (kd : String × ℕ), kd ∈ key_to_depths n →
      (kd.1, lrq * decay ^ (n + 2 - kd.2)) ∈ get_layer_lrs lrq decay n) := by
  refine ⟨rfl, rfl, ?_, ?_, rfl, by simp, ?_⟩
  · rfl
  · intro i hi
    interval_cases i <;> rfl
  · intro lrq decay n kd h
    exact List.mem_map_of_mem (fun kd : String × ℕ => (kd.1, lrq * decay ^ (n + 2 - kd.2))) h

/-- Witness for C7 at layer 3 with base 2. -/
theorem claim_C7_witness :
    List.lookup ("encoder/layer_" ++ toString 3 ++ "/") (get_layer_lrs 2 (4/5) 12)
      = some (2 * (4/5) ^ (13 - 3)) :=
  (claim_C7 2).2.2.2.1 3 (by norm_num)

/-- The clipped gradients of one micro-step, as built in both branches of
create_optimizer: the scaled gradients clipped to global-norm ceiling 1
against the finiteness-guarded reference norm. -/
def clippedGrads (sq : ℚ → ℚ) (use_fp16 : Bool) (N : ℕ) (rawGrads : List V) : List V :=
  clip_by_global_norm (computeGrads N rawGrads) 1
    (chooseUseNorm sq (computeGrads N rawGrads)
      (all_are_finite_flag use_fp16 (computeGrads N rawGrads)))

/-- C4: on each micro-step of the accumulation driver, a local step that
is a multiple of the accumulation count resets the counter to 1,
overwrites the buffers with this step clipped gradients and sets the
batch-finite flag to this step finiteness; otherwise the counter
increments, the buffers accumulate and the flag is conjoined.  The update
path fires exactly when the post-transition counter is a multiple of the
accumulation count (through the possibly loss-scale-wrapped optimizer
apply), and the single-step path invokes that apply on every micro-step. -/
theorem claim_C4 (sq : ℚ → ℚ) (opt : AdamWeightDecayOptimizer) (use_fp16 : Bool)
    (N : ℕ) (hN : 1 < N) (st : DriverState) (rawGrads : List V) :
    (st.local_step % N = 0 →
      (driverStep sq opt use_fp16 N st rawGrads).local_step = 1 ∧
      (driverStep sq opt use_fp16 N st rawGrads).accum = clippedGrads sq use_fp16 N rawGrads ∧
      (driverStep sq opt use_fp16 N st rawGrads).batch_finite
        = all_are_finite_flag use_fp16 (computeGrads N rawGrads)) ∧
    (¬ st.local_step % N = 0 →
      (driverStep sq opt use_fp16 N st rawGrads).local_step = st.local_step + 1 ∧
      (driverStep sq opt use_fp16 N st rawGrads).accum
        = List.zipWith vadd st.accum (clippedGrads sq use_fp16 N rawGrads) ∧
      (driverStep sq opt use_fp16 N st rawGrads).batch_finite
        = (st.batch_finite && all_are_finite_flag use_fp16 (computeGrads N rawGrads))) ∧
    ((driverStep sq opt use_fp16 N st rawGrads).local_step % N = 0 →
      (driverStep sq opt use_fp16 N st rawGrads).params
        = wrapped_apply_gradients sq opt use_fp16
            ((driverStep sq opt use_fp16 N st rawGrads).accum) st.params) ∧
    (¬ (driverStep sq opt use_fp16 N st rawGrads).local_step % N = 0 →
      (driverStep sq opt use_fp16 N st rawGrads).params = st.params) ∧
    (∀ (st2 : DriverState) (raw2 : List V),
      (simpleStep sq opt use_fp16 st2 raw2).params
        = wrapped_apply_gradients sq opt use_fp16 (clippedGrads sq use_fp16 1 raw2)
            st2.params) := by
  have hl : (driverStep sq opt use_fp16 N st rawGrads).local_step
      = (if (st.local_step % N == 0) then 1 else st.local_step + 1) := rfl
  refine ⟨?_, ?_, ?_, ?_, ?_⟩
  · intro h
    have hb : (st.local_step % N == 0) = true := by simp [h]
    simp [driverStep, clippedGrads, hb]
  · intro h
    have hb : (st.local_step % N == 0) = false := by simp [h]
    simp [driverStep, clippedGrads, hb]
  · intro h2
    rw [hl] at h2
    by_cases h : st.local_step % N = 0
    · have hb : (st.local_step % N == 0) = true := by simp [h]
      rw [hb] at h2
      simp at h2
      have hb2 : ((1 : ℕ) % N == 0) = true := by simp [h2]
      simp [driverStep, clippedGrads, hb, hb2]
    · have hb : (st.local_step % N == 0) = false := by simp [h]
      rw [hb] at h2
      simp at h2
      have hb2 : ((st.local_step + 1) % N == 0) = true := by simp [h2]
      simp [driverStep, clippedGrads, hb, hb2]
  · intro h2
    rw [hl] at h2
    by_cases h : st.local_step % N = 0
    · have hb : (st.local_step % N == 0) = true := by simp [h]
      rw [hb] at h2
      simp at h2
      have hb2 : ((1 : ℕ) % N == 0) = false := by simp [h2]
      simp [driverStep, clippedGrads, hb, hb2]
    · have hb : (st.local_step % N == 0) = false := by simp [h]
      rw [hb] at h2
      simp at h2
      have hb2 : ((st.local_step + 1) % N == 0) = false := by simp [h2]
      simp [driverStep, clippedGrads, hb, hb2]
  · intro st2 raw2
    rfl

/-- Witness for C4: one reset micro-step at a concrete configuration. -/
theorem claim_C4_witness :
    (driverStep sq0 (mkCreateOptimizerAdam (.scalar 1) 0) false 2
        ⟨[⟨"w", some 1, some 0, some 0⟩], [some 0], 0, true, 0⟩ [some 1]).local_step = 1 ∧
    (driverStep sq0 (mkCreateOptimizerAdam (.scalar 1) 0) false 2
        ⟨[⟨"w", some 1, some 0, some 0⟩], [some 0], 0, true, 0⟩ [some 1]).accum
      = clippedGrads sq0 false 2 [some 1] ∧
    (driverStep sq0 (mkCreateOptimizerAdam (.scalar 1) 0) false 2
        ⟨[⟨"w", some 1, some 0, some 0⟩], [some 0], 0, true, 0⟩ [some 1]).batch_finite
      = all_are_finite_flag false (computeGrads 2 [some 1]) :=
  (claim_C4 sq0 (mkCreateOptimizerAdam (.scalar 1) 0) false 2 (by norm_num)
    ⟨[⟨"w", some 1, some 0, some 0⟩], [some 0], 0, true, 0⟩ [some 1]).1 (by decide)

/-- Sum of squares of a finite gradient list is finite. -/
theorem sumSqV_map_some (qs : List ℚ) :
    sumSqV (qs.map some) = some ((qs.map (fun q => q * q)).sum) := by
  induction qs with
  | nil => rfl
  | cons a t ih => simp [sumSqV, vmul, vadd, ih]

/-- A sum of squares is nonnegative. -/
theorem sum_squares_nonneg (qs : List ℚ) : 0 ≤ (qs.map (fun q => q * q)).sum := by
  induction qs with
  | nil => simp
  | cons a t ih =>
      simp only [List.map_cons, List.sum_cons]
      exact add_nonneg (mul_self_nonneg a) ih

/-- Clipping finite gradients against a finite reference norm scales each
entry by 1 / max(use_norm, 1). -/
theorem clip_map_some (qs : List ℚ) (u : ℚ) :
    clip_by_global_norm (qs.map some) 1 (some u)
      = qs.map (fun q => some (q * (1 / max u 1))) := by
  have hmx : max u 1 ≠ 0 := (lt_of_lt_of_le zero_lt_one (le_max_right u 1)).ne'
  induction qs with
  | nil => rfl
  | cons a t ih =>
      simp only [List.map_cons, clip_by_global_norm] at ih ⊢
      simp [vmul, vdiv, vmax, hmx] at ih ⊢

/-- C6: the clip reference norm is exactly 1 whenever the finiteness flag
is false and is the true global L2 norm whenever it is true; the global
norm of finite gradients is the engine square root of the sum of squares;
clipping uses ceiling 1, is inactive for reference norms at most 1, and
both driver paths clip with this guarded norm. -/
theorem claim_C6 (sq : ℚ → ℚ) (grads : List V) :
    chooseUseNorm sq grads false = some 1 ∧
    chooseUseNorm sq grads true = global_norm sq grads ∧
    (∀ qs : List ℚ,
      global_norm sq (qs.map some) = some (sq ((qs.map (fun q => q * q)).sum))) ∧
    (∀ (qs : List ℚ) (u : ℚ), clip_by_global_norm (qs.map some) 1 (some u)
        = qs.map (fun q => some (q * (1 / max u 1)))) ∧
    (∀ (qs : List ℚ) (u : ℚ), u ≤ 1 →
        clip_by_global_norm (qs.map some) 1 (some u) = qs.map some) ∧
    (∀ (opt : AdamWeightDecayOptimizer) (use_fp16 : Bool) (N : ℕ) (st : DriverState)
        (raw : List V), st.local_step % N = 0 →
      (driverStep sq opt use_fp16 N st raw).accum = clippedGrads sq use_fp16 N raw) ∧
    (∀ (opt : AdamWeightDecayOptimizer) (use_fp16 : Bool) (st2 : DriverState)
        (raw2 : List V),
      (simpleStep sq opt use_fp16 st2 raw2).params
        = wrapped_apply_gradients sq opt use_fp16 (clippedGrads sq use_fp16 1 raw2)
            st2.params) := by
  refine ⟨rfl, rfl, ?_, ?_, ?_, ?_, ?_⟩
  · intro qs
    have h := not_lt.mpr (sum_squares_nonneg qs)
    simp [global_norm, sumSqV_map_some, vsqrt, h]
  · exact fun qs u => clip_map_some qs u
  · intro qs u hu
    rw [clip_map_some]
    have hm : max u 1 = 1 := max_eq_right hu
    simp [hm]
  · intro opt use_fp16 N st raw h
    have hb : (st.local_step % N == 0) = true := by simp [h]
    simp [driverStep, clippedGrads, hb]
  · intro opt use_fp16 st2 raw2
    rfl

/-- Witness for C6 at concrete gradients and norms. -/
theorem claim_C6_witness :
    chooseUseNorm sq0 [] false = some 1 ∧
    clip_by_global_norm [some (2 : ℚ)] 1 (some (1/2)) = [some (2 : ℚ)] :=
  ⟨(claim_C6 sq0 []).1, (claim_C6 sq0 []).2.2.2.2.1 [2] (1/2) (by norm_num)⟩

/-- The local step written by one accumulation micro-step. -/
theorem driverStep_local_step (sq : ℚ → ℚ) (opt : AdamWeightDecayOptimizer)
    (use_fp16 : Bool) (N : ℕ) (st : DriverState) (raw : List V) :
    (driverStep sq opt use_fp16 N st raw).local_step
      = if (st.local_step % N == 0) then 1 else st.local_step + 1 := rfl

/-- The parameters written by one accumulation micro-step, in terms of the
post-transition local step. -/
theorem driverStep_params (sq : ℚ → ℚ) (opt : AdamWeightDecayOptimizer)
    (use_fp16 : Bool) (N : ℕ) (st : DriverState) (raw : List V) :
    (driverStep sq opt use_fp16 N st raw).params
      = if ((driverStep sq opt use_fp16 N st raw).local_step % N == 0)
        then wrapped_apply_gradients sq opt use_fp16
              ((driverStep sq opt use_fp16 N st raw).accum) st.params
        else st.params := rfl

/-- The global step written by one accumulation micro-step, gated by the
update condition and the batch-finite flag. -/
theorem driverStep_global_step (sq : ℚ → ℚ) (opt : AdamWeightDecayOptimizer)
    (use_fp16 : Bool) (N : ℕ) (st : DriverState) (raw : List V) :
    (driverStep sq opt use_fp16 N st raw).global_step
      = if (((driverStep sq opt use_fp16 N st raw).local_step % N == 0)
            && (driverStep sq opt use_fp16 N st raw).batch_finite)
        then st.global_step + 1 else st.global_step := rfl

/-- The accumulation buffers written by one accumulation micro-step. -/
theorem driverStep_accum (sq : ℚ → ℚ) (opt : AdamWeightDecayOptimizer)
    (use_fp16 : Bool) (N : ℕ) (st : DriverState) (raw : List V) :
    (driverStep sq opt use_fp16 N st raw).accum
      = if (st.local_step % N == 0) then clippedGrads sq use_fp16 N raw
        else List.zipWith vadd st.accum (clippedGrads sq use_fp16 N raw) := rfl

/-- The batch-finite flag written by one accumulation micro-step. -/
theorem driverStep_batch_finite (sq : ℚ → ℚ) (opt : AdamWeightDecayOptimizer)
    (use_fp16 : Bool) (N : ℕ) (st : DriverState) (raw : List V) :
    (driverStep sq opt use_fp16 N st raw).batch_finite
      = if (st.local_step % N == 0)
        then (true && all_are_finite_flag use_fp16 (computeGrads N raw))
        else (st.batch_finite && all_are_finite_flag use_fp16 (computeGrads N raw)) := rfl

/-- A single finite gradient list is finite under either precision mode. -/
theorem all_finite_single (use_fp16 : Bool) (x : ℚ) :
    all_are_finite_flag use_fp16 [some x] = true := by
  cases use_fp16 <;> rfl

/-- When the engine square root of the squared scaled gradient is at most
1, clipping a single finite scaled gradient leaves it unchanged. -/
theorem clippedGrads_const (sq : ℚ → ℚ) (use_fp16 : Bool) (N : ℕ) (q : ℚ)
    (hsq : sq (q * (N : ℚ)⁻¹ * (q * (N : ℚ)⁻¹)) ≤ 1) :
    clippedGrads sq use_fp16 N [some q] = [some (q * (N : ℚ)⁻¹)] := by
  have h0 : ¬ (q * (N : ℚ)⁻¹ * (q * (N : ℚ)⁻¹) < 0) :=
    not_lt.mpr (mul_self_nonneg (q * (N : ℚ)⁻¹))
  have hmax : max (sq (q * (N : ℚ)⁻¹ * (q * (N : ℚ)⁻¹))) 1 = 1 := max_eq_right hsq
  simp [clippedGrads, computeGrads, chooseUseNorm, all_finite_single, global_norm, sumSqV,
    vmul, vadd, vsqrt, vdiv, vmax, clip_by_global_norm, h0, hmax]

/-- Invariant of a constant-gradient accumulation cycle: after j + 1
micro-steps the local step is j + 1, the buffer holds j + 1 copies of the
scaled gradient, and the batch stays finite. -/
theorem runConstDriver_inv (sq : ℚ → ℚ) (opt : AdamWeightDecayOptimizer) (use_fp16 : Bool)
    (N : ℕ) (q : ℚ) (st : DriverState)
    (hstart : st.local_step % N = 0)
    (hsq : sq (q * (N : ℚ)⁻¹ * (q * (N : ℚ)⁻¹)) ≤ 1) :
    ∀ j : ℕ, j < N →
      (runConstDriver sq opt use_fp16 N q st (j + 1)).local_step = j + 1 ∧
      (runConstDriver sq opt use_fp16 N q st (j + 1)).accum
        = [some (((j : ℚ) + 1) * (q * (N : ℚ)⁻¹))] ∧
      (runConstDriver sq opt use_fp16 N q st (j + 1)).batch_finite = true := by
  intro j
  induction j with
  | zero =>
      intro _
      have hb : (st.local_step % N == 0) = true := by simp [hstart]
      have hrun : runConstDriver sq opt use_fp16 N q st 1
          = driverStep sq opt use_fp16 N st [some q] := rfl
      refine ⟨?_, ?_, ?_⟩
      · rw [hrun, driverStep_local_step, hb]
        simp
      · rw [hrun, driverStep_accum, hb]
        simp [clippedGrads_const sq use_fp16 N q hsq]
      · rw [hrun, driverStep_batch_finite, hb]
        simp [all_finite_single, computeGrads, vmul, all_are_finite_flag, visFinite]
  | succ j ih =>
      intro hj1
      obtain ⟨hls, hac, hbf⟩ := ih (Nat.lt_of_succ_lt hj1)
      have hreset : ((runConstDriver sq opt use_fp16 N q st (j + 1)).local_step % N == 0)
          = false := by
        rw [hls]
        simp [Nat.mod_eq_of_lt hj1]
      have hrun : runConstDriver sq opt use_fp16 N q st (j + 1 + 1)
          = driverStep sq opt use_fp16 N (runConstDriver sq opt use_fp16 N q st (j + 1))
              [some q] := rfl
      refine ⟨?_, ?_, ?_⟩
      · rw [hrun, driverStep_local_step, hreset]
        simp [hls]
      · rw [hrun, driverStep_accum, hreset]
        simp only [Bool.false_eq_true, if_false]
        rw [hac, clippedGrads_const sq use_fp16 N q hsq]
        simp only [List.zipWith_cons_cons, List.zipWith_nil_right, List.zipWith_nil_left, vadd]
        simp only [List.cons.injEq, Option.some.injEq, and_true]
        push_cast
        ring
      · rw [hrun, driverStep_batch_finite, hreset]
        simp only [Bool.false_eq_true, if_false]
        rw [hbf]
        simp [all_finite_single, computeGrads, vmul, all_are_finite_flag, visFinite]

/-- C10: the driver differentiates the loss scaled by the reciprocal
accumulation count, so a cycle of N micro-steps with constant raw loss
gradient q (small enough that clipping is inactive) completes with the
buffer holding the mean gradient q, not the sum N * q, and with the update
condition fired. -/
theorem claim_C10 (sq : ℚ → ℚ) (opt : AdamWeightDecayOptimizer) (use_fp16 : Bool)
    (N : ℕ) (q : ℚ) (st : DriverState) (hN : 0 < N)
    (hstart : st.local_step % N = 0)
    (hsq : sq (q * (N : ℚ)⁻¹ * (q * (N : ℚ)⁻¹)) ≤ 1) :
    (runConstDriver sq opt use_fp16 N q st N).accum = [some q] ∧
    (runConstDriver sq opt use_fp16 N q st N).local_step % N = 0 ∧
    (1 < N → q ≠ 0 →
      (runConstDriver sq opt use_fp16 N q st N).accum ≠ [some ((N : ℚ) * q)]) := by
  obtain ⟨hls, hac, hbf⟩ :=
    runConstDriver_inv sq opt use_fp16 N q st hstart hsq (N - 1) (by omega)
  have hN1 : N - 1 + 1 = N := Nat.succ_pred_eq_of_pos hN
  rw [hN1] at hls hac
  have hNne : (N : ℚ) ≠ 0 := Nat.cast_ne_zero.mpr hN.ne'
  have haq : (runConstDriver sq opt use_fp16 N q st N).accum = [some q] := by
    rw [hac]
    have hcast : ((N - 1 : ℕ) : ℚ) = (N : ℚ) - 1 := by
      have h1 : (1 : ℕ) ≤ N := hN
      push_cast [h1]
      ring
    rw [hcast]
    simp only [List.cons.injEq, Option.some.injEq, and_true]
    field_simp
  refine ⟨haq, ?_, ?_⟩
  · rw [hls]
    exact Nat.mod_self N
  · intro h1 hq heq
    rw [haq] at heq
    simp only [List.cons.injEq, Option.some.injEq, and_true] at heq
    have h2 : (1 : ℚ) * q = (N : ℚ) * q := by rw [one_mul]; exact heq
    have h3 : (1 : ℚ) = (N : ℚ) := mul_right_cancel₀ hq h2
    have h4 : N = 1 := by exact_mod_cast h3.symm
    omega

/-- Witness for C10 with two accumulation steps and gradient one half. -/
theorem claim_C10_witness :
    (runConstDriver sq0 (mkCreateOptimizerAdam (.scalar 1) 0) false 2 (1/2)
        ⟨[⟨"w", some 1, some 0, some 0⟩], [some 0], 0, true, 0⟩ 2).accum = [some (1/2)] ∧
    (runConstDriver sq0 (mkCreateOptimizerAdam (.scalar 1) 0) false 2 (1/2)
        ⟨[⟨"w", some 1, some 0, some 0⟩], [some 0], 0, true, 0⟩ 2).local_step % 2 = 0 ∧
    (runConstDriver sq0 (mkCreateOptimizerAdam (.scalar 1) 0) false 2 (1/2)
        ⟨[⟨"w", some 1, some 0, some 0⟩], [some 0], 0, true, 0⟩ 2).accum
      ≠ [some ((2 : ℚ) * (1/2))] := by
  have h := claim_C10 sq0 (mkCreateOptimizerAdam (.scalar 1) 0) false 2 (1/2)
    ⟨[⟨"w", some 1, some 0, some 0⟩], [some 0], 0, true, 0⟩ (by norm_num) (by decide)
    (by norm_num [sq0])
  exact ⟨h.1, h.2.1, h.2.2 (by norm_num) (by norm_num)⟩

/-- The per-parameter Adam update never renames the variable it writes. -/
theorem applyGradOne_name (sq : ℚ → ℚ) (opt : AdamWeightDecayOptimizer) (lr : ℚ)
    (g : V) (ps : ParamState) : (applyGradOne sq opt lr g ps).name = ps.name := rfl

/-- A sum of key-indicator ones counts the matching keys. -/
theorem sum_ite_eq_countP {α : Type} (l : List α) (c : α → Bool) :
    (l.map (fun a => if c a then 1 else 0)).sum = l.countP c := by
  induction l with
  | nil => rfl
  | cons a t ih =>
      cases h : c a <;> simp [List.countP_cons, h, ih, Nat.add_comm]

/-- The bucket of one dict key contributes one update for a parameter name
occurring once among the pairs exactly when the key occurs in that name. -/
theorem bucket_count (sq : ℚ → ℚ) (opt : AdamWeightDecayOptimizer) (lr : ℚ)
    (key : String) (pairs : List (V × ParamState)) (nm : String)
    (hone : pairs.countP (fun gp => gp.2.name == nm) = 1) :
    (apply_gradients_group sq opt lr
        (pairs.filter (fun gp => containsSub key gp.2.name))).countP
      (fun ps => ps.name == nm)
    = if containsSub key nm then 1 else 0 := by
  rw [apply_gradients_group, List.countP_map, List.countP_filter]
  have hpt : ∀ gp ∈ pairs,
      (((fun ps => ps.name == nm) ∘ fun gp => applyGradOne sq opt lr gp.1 gp.2) gp &&
        (fun gp => containsSub key gp.2.name) gp)
      = ((gp.2.name == nm) && containsSub key nm) := by
    intro gp _
    simp only [Function.comp_apply, applyGradOne_name]
    cases h : (gp.2.name == nm) with
    | false => simp
    | true => rw [eq_of_beq h]
  rw [List.countP_congr (fun x hx => by rw [hpt x hx])]
  cases hc : containsSub key nm with
  | true => simpa [hc] using hone
  | false => simp [hc]

/-- Summing bucket contributions over all dict keys counts the keys
occurring in the parameter name. -/
theorem count_updates (sq : ℚ → ℚ) (opt : AdamWeightDecayOptimizer)
    (keys : List (String × ℚ)) (pairs : List (V × ParamState)) (nm : String)
    (hone : pairs.countP (fun gp => gp.2.name == nm) = 1) :
    ((keys.map (fun kv =>
        apply_gradients_group sq opt kv.2
          (pairs.filter (fun gp => containsSub kv.1 gp.2.name)))).flatten).countP
      (fun ps => ps.name == nm)
    = keys.countP (fun kv => containsSub kv.1 nm) := by
  induction keys with
  | nil => rfl
  | cons kv t ih =>
      simp only [List.map_cons, List.flatten_cons, List.countP_append, List.countP_cons, ih]
      rw [bucket_count sq opt kv.2 kv.1 pairs nm hone]
      cases hc : containsSub kv.1 nm <;> simp [hc, Nat.add_comm]

/-- firstRepeat finds nothing on a duplicate-free list disjoint from the
names already seen. -/
theorem firstRepeat_eq_none (l : List String) :
    ∀ seen : List String, l.Nodup → (∀ x ∈ l, x ∉ seen) → firstRepeat seen l = none := by
  induction l with
  | nil => intro seen _ _; rfl
  | cons n t ih =>
      intro seen hnd hdisj
      rw [firstRepeat, if_neg (hdisj n (List.mem_cons_self n t))]
      refine ih (n :: seen) (List.nodup_cons.mp hnd).2 ?_
      intro x hx hmem
      rcases List.mem_cons.mp hmem with h | h
      · exact (List.nodup_cons.mp hnd).1 (h ▸ hx)
      · exact hdisj x (List.mem_cons_of_mem _ hx) h

/-- When firstRepeat finds nothing the list is duplicate-free and disjoint
from the seen names. -/
theorem firstRepeat_none_nodup (l : List String) :
    ∀ seen : List String, firstRepeat seen l = none → l.Nodup ∧ ∀ x ∈ l, x ∉ seen := by
  induction l with
  | nil => intro seen _; exact ⟨List.nodup_nil, by simp⟩
  | cons n t ih =>
      intro seen h
      rw [firstRepeat] at h
      by_cases hn : n ∈ seen
      · rw [if_pos hn] at h; cases h
      · rw [if_neg hn] at h
        obtain ⟨hnd, hdisj⟩ := ih (n :: seen) h
        refine ⟨List.nodup_cons.mpr ⟨?_, hnd⟩, ?_⟩
        · intro hmem
          exact hdisj n hmem (List.mem_cons_self n seen)
        · intro x hx
          rcases List.mem_cons.mp hx with h1 | h1
          · rw [h1]; exact hn
          · intro hmem
            exact hdisj x h1 (List.mem_cons_of_mem _ hmem)

/-- Counting a conjunction of predicates when the first conjunct holds for
exactly one list element. -/
theorem countP_and_of_unique {α : Type} (p q : α → Bool) (a : α) (hp : p a = true) :
    ∀ l : List α, a ∈ l → l.countP p = 1 →
      l.countP (fun x => p x && q x) = if q a = true then 1 else 0 := by
  intro l
  induction l with
  | nil => intro ha _; cases ha
  | cons x t ih =>
      intro ha hu
      rw [List.countP_cons] at hu ⊢
      cases hx : p x with
      | true =>
          have h0 : t.countP p = 0 := by
            rw [hx, if_pos rfl] at hu
            omega
          have hax : a = x := by
            rcases List.mem_cons.mp ha with h | h
            · exact h
            · exfalso
              have hpos : 0 < t.countP p := List.countP_pos_iff.mpr ⟨a, h, hp⟩
              omega
          have htz : t.countP (fun y => p y && q y) = 0 := by
            rw [List.countP_eq_zero]
            intro y hy hcon
            have hpy : p y = true := by
              cases hpy : p y
              · rw [hpy] at hcon; simp at hcon
              · rfl
            exact (List.countP_eq_zero.mp h0 y hy) hpy
          rw [htz, hax]
          simp [hax ▸ hx]
      | false =>
          have hu' : t.countP p = 1 := by
            rw [hx, if_neg Bool.false_ne_true] at hu
            omega
          have hat : a ∈ t := by
            rcases List.mem_cons.mp ha with h | h
            · exfalso; rw [h] at hp; rw [hp] at hx; cases hx
            · exact h
          rw [ih hat hu']
          simp [hx]

/-- The slot name of one pair occurs in the processed-name sequence once
per dict key its variable name contains, when slot names are distinct
among the pairs. -/
theorem processedNames_count (keys : List (String × ℚ)) (pairs : List (V × ParamState))
    (gp : V × ParamState) (hgp : gp ∈ pairs)
    (hnods : (pairs.map (fun x => get_variable_name x.2.name)).Nodup) :
    (processedNames keys pairs).count (get_variable_name gp.2.name)
      = keys.countP (fun kv => containsSub kv.1 gp.2.name) := by
  rw [List.count_eq_countP, processedNames, List.countP_flatten, List.map_map]
  have hone : pairs.countP
      (fun x => get_variable_name x.2.name == get_variable_name gp.2.name) = 1 := by
    have h1 : pairs.countP
        (fun x => get_variable_name x.2.name == get_variable_name gp.2.name)
        = (pairs.map (fun x => get_variable_name x.2.name)).countP
            (fun s => s == get_variable_name gp.2.name) := by
      rw [List.countP_map]
      rfl
    rw [h1, ← List.count_eq_countP]
    exact List.count_eq_one_of_mem hnods (List.mem_map_of_mem _ hgp)
  have hterm : ∀ kv ∈ keys,
      (List.countP (fun s => s == get_variable_name gp.2.name) ∘ fun kv =>
        (pairs.filter (fun x => containsSub kv.1 x.2.name)).map
          (fun x => get_variable_name x.2.name)) kv
      = if containsSub kv.1 gp.2.name = true then 1 else 0 := by
    intro kv _
    show List.countP (fun s => s == get_variable_name gp.2.name)
        ((pairs.filter (fun x => containsSub kv.1 x.2.name)).map
          (fun x => get_variable_name x.2.name)) = _
    rw [List.countP_map, List.countP_filter]
    have h := countP_and_of_unique
      (fun x : V × ParamState =>
        get_variable_name x.2.name == get_variable_name gp.2.name)
      (fun x : V × ParamState => containsSub kv.1 x.2.name) gp (by simp) pairs hgp hone
    simpa [Function.comp] using h
  rw [List.map_congr_left hterm, sum_ite_eq_countP]

/-- When every pair matches exactly one key and slot names are distinct,
every Adam slot is created exactly once over the buckets. -/
theorem processedNames_nodup (keys : List (String × ℚ)) (pairs : List (V × ParamState))
    (hnods : (pairs.map (fun x => get_variable_name x.2.name)).Nodup)
    (hexact : ∀ gp ∈ pairs, keys.countP (fun kv => containsSub kv.1 gp.2.name) = 1) :
    (processedNames keys pairs).Nodup := by
  rw [List.nodup_iff_count_le_one]
  intro s
  by_cases hex : ∃ gp ∈ pairs, get_variable_name gp.2.name = s
  · obtain ⟨gp, hgp, hs⟩ := hex
    rw [← hs, processedNames_count keys pairs gp hgp hnods, hexact gp hgp]
  · have h0 : (processedNames keys pairs).count s = 0 := by
      rw [List.count_eq_zero]
      intro hmem
      rw [processedNames, List.mem_flatten] at hmem
      obtain ⟨bucket, hb, hsb⟩ := hmem
      obtain ⟨kv, hkv, hbe⟩ := List.mem_map.mp hb
      rw [← hbe] at hsb
      obtain ⟨x, hx, hsx⟩ := List.mem_map.mp hsb
      exact hex ⟨x, (List.mem_filter.mp hx).1, hsx⟩
    omega

/-- C2 (amended): a pair whose variable name contains several keys is
appended to the bucket of every key it contains, and the second creation
of its adam_m slot then fails at graph build with the TF1 variable-reuse
ValueError, so no parameter is ever routed to just its first matching
key; when every parameter name contains exactly one key (the designed
non-overlapping case, with distinct variable and slot names) the call
succeeds and each parameter receives exactly one update. -/
theorem claim_C2 (sq : ℚ → ℚ) (opt : AdamWeightDecayOptimizer)
    (keys : List (String × ℚ)) (pairs : List (V × ParamState))
    (hlr : opt.learning_rate = .perGroup keys)
    (hnod : (pairs.map (fun gp => gp.2.name)).Nodup)
    (hnods : (pairs.map (fun gp => get_variable_name gp.2.name)).Nodup) :
    ((∀ gp ∈ pairs, keys.countP (fun kv => containsSub kv.1 gp.2.name) = 1) →
      apply_gradients sq opt pairs = .ok (apply_gradients_total sq opt pairs) ∧
      ∀ gp ∈ pairs,
        (apply_gradients_total sq opt pairs).countP (fun ps => ps.name == gp.2.name)
          = 1) ∧
    ((∃ gp ∈ pairs, 2 ≤ keys.countP (fun kv => containsSub kv.1 gp.2.name)) →
      ∃ msg, apply_gradients sq opt pairs = .error msg) := by
  constructor
  · intro hexact
    have hall : ∀ gp ∈ pairs, matchesSomeKey keys gp.2.name = true := by
      intro gp hgp
      rw [matchesSomeKey, List.any_eq_true]
      have h1 := hexact gp hgp
      have hpos : 0 < keys.countP (fun kv => containsSub kv.1 gp.2.name) := by omega
      exact List.countP_pos_iff.mp hpos
    have hfind : pairs.find? (fun gp => !(matchesSomeKey keys gp.2.name)) = none := by
      rw [List.find?_eq_none]
      intro gp hgp
      simp [hall gp hgp]
    have hfr : firstRepeat [] (processedNames keys pairs) = none :=
      firstRepeat_eq_none _ [] (processedNames_nodup keys pairs hnods hexact) (by simp)
    constructor
    · simp [apply_gradients, hlr, hfind, hfr]
    · intro gp hgp
      have hone : pairs.countP (fun x => x.2.name == gp.2.name) = 1 := by
        have h1 : pairs.countP (fun x => x.2.name == gp.2.name)
            = (pairs.map (fun x => x.2.name)).countP (fun s => s == gp.2.name) := by
          rw [List.countP_map]
          rfl
        rw [h1, ← List.count_eq_countP]
        exact List.count_eq_one_of_mem hnod (List.mem_map_of_mem _ hgp)
      have htot : apply_gradients_total sq opt pairs
          = ((keys.map (fun kv =>
              apply_gradients_group sq opt kv.2
                (pairs.filter (fun gp => containsSub kv.1 gp.2.name)))).flatten) := by
        unfold apply_gradients_total
        rw [hlr]
      rw [htot, count_updates sq opt keys pairs gp.2.name hone, hexact gp hgp]
  · rintro ⟨gp, hgp, h2⟩
    cases hfind : pairs.find? (fun gp => !(matchesSomeKey keys gp.2.name)) with
    | some y =>
        exact ⟨"No learning rate specified for variable " ++ y.2.name,
          by simp [apply_gradients, hlr, hfind]⟩
    | none =>
        cases hfr : firstRepeat [] (processedNames keys pairs) with
        | some d =>
            exact ⟨"Variable " ++ d ++ "/adam_m already exists",
              by simp [apply_gradients, hlr, hfind, hfr]⟩
        | none =>
            exfalso
            have hnd := (firstRepeat_none_nodup _ [] hfr).1
            have hc := processedNames_count keys pairs gp hgp hnods
            have hle := List.nodup_iff_count_le_one.mp hnd (get_variable_name gp.2.name)
            omega

/-- Witness for C2 (amended) at a concrete single-key mapping. -/
theorem claim_C2_witness :
    apply_gradients sq0 ⟨.perGroup [("a", 1)], 0, 9/10, 999/1000, 1/1000000, []⟩
        [(some 0, ⟨"xa", some 1, some 0, some 0⟩)]
      = .ok (apply_gradients_total sq0
          ⟨.perGroup [("a", 1)], 0, 9/10, 999/1000, 1/1000000, []⟩
          [(some 0, ⟨"xa", some 1, some 0, some 0⟩)]) ∧
    (apply_gradients_total sq0 ⟨.perGroup [("a", 1)], 0, 9/10, 999/1000, 1/1000000, []⟩
        [(some 0, ⟨"xa", some 1, some 0, some 0⟩)]).countP (fun ps => ps.name == "xa")
      = 1 := by
  have h := (claim_C2 sq0 ⟨.perGroup [("a", 1)], 0, 9/10, 999/1000, 1/1000000, []⟩
    [("a", 1)] [(some 0, ⟨"xa", some 1, some 0, some 0⟩)] rfl (by decide) (by decide)).1
    (by decide)
  exact ⟨h.1, h.2 (some 0, ⟨"xa", some 1, some 0, some 0⟩) (by simp)⟩

/-- Counterexample to C2 as stated: the variable named ab contains both
keys a and b, and apply_gradients fails at graph build with the reuse
ValueError on its second adam_m slot creation, so the pair is neither
routed to only its first matching group nor given exactly one update. -/
theorem claim_C2_counterexample :
    matchesSomeKey [("a", (1 : ℚ)), ("b", 2)] "ab" = true ∧
    apply_gradients sq0 ⟨.perGroup [("a", 1), ("b", 2)], 0, 9/10, 999/1000, 1/1000000, []⟩
        [(some 1, ⟨"ab", some 1, some 0, some 0⟩)]
      = .error "Variable ab/adam_m already exists" :=
  ⟨rfl, rfl⟩

/-- C5 (amended): with a per-group mapping, a pair whose variable name
contains no key makes apply_gradients fail with the no-match ValueError,
raised during grouping before any assignment is constructed; when every
pair matches at least one key that error is not raised, and the call
returns the grouped assignments without error provided no Adam slot is
created twice across the buckets. -/
theorem claim_C5 (sq : ℚ → ℚ) (opt : AdamWeightDecayOptimizer)
    (keys : List (String × ℚ)) (pairs : List (V × ParamState))
    (hlr : opt.learning_rate = .perGroup keys) :
    ((∃ gp ∈ pairs, matchesSomeKey keys gp.2.name = false) →
      ∃ msg, apply_gradients sq opt pairs = .error msg) ∧
    ((∀ gp ∈ pairs, matchesSomeKey keys gp.2.name = true) →
      (processedNames keys pairs).Nodup →
      apply_gradients sq opt pairs = .ok (apply_gradients_total sq opt pairs)) := by
  constructor
  · rintro ⟨gp, hmem, hfalse⟩
    have hsome : (pairs.find? (fun gp => !(matchesSomeKey keys gp.2.name))).isSome = true := by
      rw [List.find?_isSome]
      exact ⟨gp, hmem, by simp [hfalse]⟩
    obtain ⟨y, hy⟩ := Option.isSome_iff_exists.mp hsome
    exact ⟨"No learning rate specified for variable " ++ y.2.name,
      by simp [apply_gradients, hlr, hy]⟩
  · intro hall hnodup
    have hfind : pairs.find? (fun gp => !(matchesSomeKey keys gp.2.name)) = none := by
      rw [List.find?_eq_none]
      intro gp hgp
      simp [hall gp hgp]
    have hfr : firstRepeat [] (processedNames keys pairs) = none :=
      firstRepeat_eq_none _ [] hnodup (by simp)
    simp [apply_gradients, hlr, hfind, hfr]

/-- Counterexample to C5 as stated: the variable named xyz matches both
keys x and xy, so every pair matches at least one key, yet apply_gradients
still raises a ValueError, the TF1 variable-reuse error from the second
adam_m slot creation. -/
theorem claim_C5_counterexample :
    matchesSomeKey [("x", (1 : ℚ)), ("xy", 2)] "xyz" = true ∧
    apply_gradients sq0 ⟨.perGroup [("x", 1), ("xy", 2)], 0, 9/10, 999/1000, 1/1000000, []⟩
        [(some 1, ⟨"xyz", some 1, some 0, some 0⟩)]
      = .error "Variable xyz/adam_m already exists" :=
  ⟨rfl, rfl⟩

/-- Witness for C5 (amended): a non-matching variable errors, and an
all-matching single-key configuration succeeds. -/
theorem claim_C5_witness :
    (∃ msg, apply_gradients sq0 ⟨.perGroup [("a", 1)], 0, 9/10, 999/1000, 1/1000000, []⟩
        [(some 0, ⟨"b", some 1, some 0, some 0⟩)] = .error msg) ∧
    apply_gradients sq0 ⟨.perGroup [("a", 1)], 0, 9/10, 999/1000, 1/1000000, []⟩
        [(some 0, ⟨"xa", some 1, some 0, some 0⟩)]
      = .ok (apply_gradients_total sq0
          ⟨.perGroup [("a", 1)], 0, 9/10, 999/1000, 1/1000000, []⟩
          [(some 0, ⟨"xa", some 1, some 0, some 0⟩)]) := by
  constructor
  · exact (claim_C5 sq0 ⟨.perGroup [("a", 1)], 0, 9/10, 999/1000, 1/1000000, []⟩
      [("a", 1)] [(some 0, ⟨"b", some 1, some 0, some 0⟩)] rfl).1
      ⟨(some 0, ⟨"b", some 1, some 0, some 0⟩), by simp, by decide⟩
  · exact (claim_C5 sq0 ⟨.perGroup [("a", 1)], 0, 9/10, 999/1000, 1/1000000, []⟩
      [("a", 1)] [(some 0, ⟨"xa", some 1, some 0, some 0⟩)] rfl).2
      (by decide) (by decide)

/-- A non-finite left operand poisons an addition. -/
theorem vadd_none_left (x : V) : vadd none x = none := rfl

/-- A non-finite right operand poisons an addition. -/
theorem vadd_none_right (x : V) : vadd x none = none := by cases x <;> rfl

/-- A non-finite buffer entry survives accumulation by addition. -/
theorem none_mem_zipWith_left :
    ∀ l₁ l₂ : List V, none ∈ l₁ → l₁.length ≤ l₂.length →
      none ∈ List.zipWith vadd l₁ l₂ := by
  intro l₁
  induction l₁ with
  | nil => intro l₂ h _; cases h
  | cons x t ih =>
      intro l₂ hmem hlen
      cases l₂ with
      | nil => simp at hlen
      | cons y t₂ =>
          rw [List.zipWith_cons_cons]
          rcases List.mem_cons.mp hmem with h | h
          · rw [← h, vadd_none_left]
            exact List.mem_cons_self _ _
          · refine List.mem_cons_of_mem _ (ih t₂ h ?_)
            simp at hlen
            omega

/-- A non-finite incoming gradient poisons the accumulation sum. -/
theorem none_mem_zipWith_right :
    ∀ l₁ l₂ : List V, none ∈ l₂ → l₂.length ≤ l₁.length →
      none ∈ List.zipWith vadd l₁ l₂ := by
  intro l₁ l₂
  induction l₂ generalizing l₁ with
  | nil => intro h _; cases h
  | cons y t₂ ih =>
      intro hmem hlen
      cases l₁ with
      | nil => simp at hlen
      | cons x t =>
          rw [List.zipWith_cons_cons]
          rcases List.mem_cons.mp hmem with h | h
          · rw [← h, vadd_none_right]
            exact List.mem_cons_self _ _
          · refine List.mem_cons_of_mem _ (ih t h ?_)
            simp at hlen
            omega

/-- Loss scaling preserves non-finiteness. -/
theorem none_mem_computeGrads (N : ℕ) (raw : List V) (h : none ∈ raw) :
    none ∈ computeGrads N raw :=
  List.mem_map.mpr ⟨none, h, rfl⟩

/-- Clipping preserves non-finiteness. -/
theorem none_mem_clippedGrads (sq : ℚ → ℚ) (use_fp16 : Bool) (N : ℕ) (raw : List V)
    (h : none ∈ raw) : none ∈ clippedGrads sq use_fp16 N raw := by
  unfold clippedGrads clip_by_global_norm
  exact List.mem_map.mpr ⟨none, none_mem_computeGrads N raw h, rfl⟩

/-- Scaling and clipping keep the per-variable gradient count. -/
theorem length_clippedGrads (sq : ℚ → ℚ) (use_fp16 : Bool) (N : ℕ) (raw : List V) :
    (clippedGrads sq use_fp16 N raw).length = raw.length := by
  simp [clippedGrads, clip_by_global_norm, computeGrads]

/-- Under fp16 a non-finite gradient falsifies the per-step flag. -/
theorem all_finite_flag_false_of_none (grads : List V) (h : none ∈ grads) :
    all_are_finite_flag true grads = false := by
  have hall : grads.all visFinite = false :=
    List.all_eq_false.mpr ⟨none, h, by simp [visFinite]⟩
  simp [all_are_finite_flag, hall]

/-- The fp16 loss-scale wrapper skips the Adam assignments when any
incoming gradient is non-finite, leaving every parameter and both moments
unchanged. -/
theorem wrapped_apply_skip (sq : ℚ → ℚ) (opt : AdamWeightDecayOptimizer)
    (grads : List V) (params : List ParamState) (h : none ∈ grads) :
    wrapped_apply_gradients sq opt true grads params = params := by
  have hall : grads.all visFinite = false :=
    List.all_eq_false.mpr ⟨none, h, by simp [visFinite]⟩
  simp [wrapped_apply_gradients, hall]

/-- Iterating the accumulation driver with the j-th micro-step presenting
the gradient list raw j. -/
def runDriverIdx (sq : ℚ → ℚ) (opt : AdamWeightDecayOptimizer) (use_fp16 : Bool)
    (N : ℕ) (raw : ℕ → List V) (st : DriverState) : ℕ → DriverState
  | 0 => st
  | j + 1 => driverStep sq opt use_fp16 N (runDriverIdx sq opt use_fp16 N raw st j) (raw j)

/-- Invariant of one fp16 accumulation cycle started at a reset boundary:
after j + 1 micro-steps the local step is j + 1, the buffer length is the
parameter count, a non-finite micro-step so far forces the batch-finite
flag false and a non-finite buffer entry, and the parameters and global
step are untouched as long as the cycle has not fired a finite update. -/
theorem runDriverIdx_inv (sq : ℚ → ℚ) (opt : AdamWeightDecayOptimizer) (N : ℕ)
    (hN : 1 < N) (raw : ℕ → List V) (st : DriverState)
    (hstart : st.local_step % N = 0)
    (hlen : ∀ i, i < N → (raw i).length = st.params.length) :
    ∀ j : ℕ, j + 1 ≤ N →
      (runDriverIdx sq opt true N raw st (j + 1)).local_step = j + 1 ∧
      (runDriverIdx sq opt true N raw st (j + 1)).accum.length = st.params.length ∧
      ((∃ i, i ≤ j ∧ none ∈ raw i) →
        (runDriverIdx sq opt true N raw st (j + 1)).batch_finite = false ∧
        none ∈ (runDriverIdx sq opt true N raw st (j + 1)).accum) ∧
      ((j + 1 < N ∨ ∃ i, i ≤ j ∧ none ∈ raw i) →
        (runDriverIdx sq opt true N raw st (j + 1)).params = st.params ∧
        (runDriverIdx sq opt true N raw st (j + 1)).global_step = st.global_step) := by
  intro j
  induction j with
  | zero =>
      intro _
      have hb : (st.local_step % N == 0) = true := by simp [hstart]
      have hrun : runDriverIdx sq opt true N raw st 1
          = driverStep sq opt true N st (raw 0) := rfl
      have hloc : (runDriverIdx sq opt true N raw st 1).local_step = 1 := by
        rw [hrun, driverStep_local_step, hb]
        simp
      have hupd : ((driverStep sq opt true N st (raw 0)).local_step % N == 0) = false := by
        rw [driverStep_local_step, hb]
        simp [Nat.mod_eq_of_lt hN]
      refine ⟨hloc, ?_, ?_, ?_⟩
      · rw [hrun, driverStep_accum, hb]
        simp [length_clippedGrads, hlen 0 (by omega)]
      · rintro ⟨i, hi, hnone⟩
        have hi0 : i = 0 := Nat.le_zero.mp hi
        rw [hi0] at hnone
        constructor
        · rw [hrun, driverStep_batch_finite, hb]
          simp [all_finite_flag_false_of_none _ (none_mem_computeGrads N (raw 0) hnone)]
        · rw [hrun, driverStep_accum, hb]
          simp [none_mem_clippedGrads sq true N (raw 0) hnone]
      · intro _
        constructor
        · rw [hrun, driverStep_params, hupd]
          simp
        · rw [hrun, driverStep_global_step, hupd]
          simp
  | succ j ih =>
      intro h2
      have hj1 : j + 1 ≤ N := by omega
      have hj1lt : j + 1 < N := by omega
      obtain ⟨ihl, iha, ihp, ihg⟩ := ih hj1
      have hst := ihg (Or.inl hj1lt)
      have hb : ((runDriverIdx sq opt true N raw st (j + 1)).local_step % N == 0)
          = false := by
        rw [ihl]
        simp [Nat.mod_eq_of_lt hj1lt]
      have hrun : runDriverIdx sq opt true N raw st (j + 1 + 1)
          = driverStep sq opt true N (runDriverIdx sq opt true N raw st (j + 1))
              (raw (j + 1)) := rfl
      have hloc : (runDriverIdx sq opt true N raw st (j + 1 + 1)).local_step
          = j + 1 + 1 := by
        rw [hrun, driverStep_local_step, hb]
        simp [ihl]
      have hlenacc : (runDriverIdx sq opt true N raw st (j + 1 + 1)).accum.length
          = st.params.length := by
        rw [hrun, driverStep_accum, hb]
        simp [List.length_zipWith, iha, length_clippedGrads, hlen (j + 1) (by omega)]
      have hpois : (∃ i, i ≤ j + 1 ∧ none ∈ raw i) →
          (runDriverIdx sq opt true N raw st (j + 1 + 1)).batch_finite = false ∧
          none ∈ (runDriverIdx sq opt true N raw st (j + 1 + 1)).accum := by
        rintro ⟨i, hi, hnone⟩
        by_cases hij : i ≤ j
        · obtain ⟨hbf, hacc⟩ := ihp ⟨i, hij, hnone⟩
          constructor
          · rw [hrun, driverStep_batch_finite, hb]
            simp [hbf]
          · rw [hrun, driverStep_accum, hb]
            simp only [Bool.false_eq_true, if_false]
            refine none_mem_zipWith_left _ _ hacc ?_
            rw [iha, length_clippedGrads, hlen (j + 1) (by omega)]
        · have hij1 : i = j + 1 := by omega
          rw [hij1] at hnone
          constructor
          · rw [hrun, driverStep_batch_finite, hb]
            simp [all_finite_flag_false_of_none _
              (none_mem_computeGrads N (raw (j + 1)) hnone)]
          · rw [hrun, driverStep_accum, hb]
            simp only [Bool.false_eq_true, if_false]
            refine none_mem_zipWith_right _ _
              (none_mem_clippedGrads sq true N (raw (j + 1)) hnone) ?_
            rw [iha, length_clippedGrads, hlen (j + 1) (by omega)]
      refine ⟨hloc, hlenacc, hpois, ?_⟩
      intro hcond
      by_cases hfire : j + 1 + 1 < N
      · have hupd : ((driverStep sq opt true N
            (runDriverIdx sq opt true N raw st (j + 1)) (raw (j + 1))).local_step % N == 0)
            = false := by
          rw [driverStep_local_step, hb]
          simp [ihl, Nat.mod_eq_of_lt hfire]
        constructor
        · rw [hrun, driverStep_params, hupd]
          simp [hst.1]
        · rw [hrun, driverStep_global_step, hupd]
          simp [hst.2]
      · have hpcond : ∃ i, i ≤ j + 1 ∧ none ∈ raw i := by
          rcases hcond with h | h
          · exact absurd h hfire
          · exact h
        obtain ⟨hbf, hacc⟩ := hpois hpcond
        rw [hrun] at hbf hacc
        have hN2 : j + 1 + 1 = N := by omega
        have hupd : ((driverStep sq opt true N
            (runDriverIdx sq opt true N raw st (j + 1)) (raw (j + 1))).local_step % N == 0)
            = true := by
          rw [driverStep_local_step, hb]
          simp [ihl, hN2, Nat.mod_self]
        constructor
        · rw [hrun, driverStep_params, hupd]
          rw [if_pos rfl, wrapped_apply_skip sq opt _ _ hacc]
          exact hst.1
        · rw [hrun, driverStep_global_step, hbf]
          simp [hst.2]

/-- C1: in an accumulation cycle with more than one accumulation step
where at least one micro-step gradient is non-finite under mixed
precision, the batch-finite flag is false at cycle completion and the
cycle update is skipped entirely: parameter values and the Adam moments
are left unchanged, GlobalStep does not advance, and LocalStep still
resets so the next cycle starts normally. -/
theorem claim_C1 (sq : ℚ → ℚ) (opt : AdamWeightDecayOptimizer) (N : ℕ)
    (raw : ℕ → List V) (st : DriverState) (hN : 1 < N)
    (hstart : st.local_step % N = 0)
    (hlen : ∀ i, i < N → (raw i).length = st.params.length)
    (hpoison : ∃ i, i < N ∧ none ∈ raw i) :
    (runDriverIdx sq opt true N raw st N).params = st.params ∧
    (runDriverIdx sq opt true N raw st N).global_step = st.global_step ∧
    (runDriverIdx sq opt true N raw st N).batch_finite = false ∧
    (runDriverIdx sq opt true N raw st N).local_step % N = 0 ∧
    ∀ raw2 : List V,
      (driverStep sq opt true N (runDriverIdx sq opt true N raw st N) raw2).local_step
        = 1 := by
  have hN0 : 0 < N := by omega
  have hN1 : N - 1 + 1 = N := Nat.succ_pred_eq_of_pos hN0
  obtain ⟨i, hiN, hnone⟩ := hpoison
  have hpois : ∃ i, i ≤ N - 1 ∧ none ∈ raw i := ⟨i, by omega, hnone⟩
  obtain ⟨hloc, hlenacc, hp, hg⟩ :=
    runDriverIdx_inv sq opt N hN raw st hstart hlen (N - 1) (by omega)
  rw [hN1] at hloc hp hg
  obtain ⟨hbf, hacc⟩ := hp hpois
  obtain ⟨hpar, hgs⟩ := hg (Or.inr hpois)
  refine ⟨hpar, hgs, hbf, ?_, ?_⟩
  · rw [hloc]
    exact Nat.mod_self N
  · intro raw2
    have hb : ((runDriverIdx sq opt true N raw st N).local_step % N == 0) = true := by
      rw [hloc]
      simp [Nat.mod_self]
    rw [driverStep_local_step, hb]
    simp

/-- Witness for C1 on a concrete two-step cycle whose first micro-step
gradient is non-finite. -/
theorem claim_C1_witness :
    (runDriverIdx sq0 (mkCreateOptimizerAdam (.scalar 1) 0) true 2
        (fun i => if i = 0 then [none] else [some 0])
        ⟨[⟨"w", some 1, some 0, some 0⟩], [some 0], 0, true, 0⟩ 2).params
      = [⟨"w", some 1, some 0, some 0⟩] ∧
    (runDriverIdx sq0 (mkCreateOptimizerAdam (.scalar 1) 0) true 2
        (fun i => if i = 0 then [none] else [some 0])
        ⟨[⟨"w", some 1, some 0, some 0⟩], [some 0], 0, true, 0⟩ 2).global_step = 0 ∧
    (runDriverIdx sq0 (mkCreateOptimizerAdam (.scalar 1) 0) true 2
        (fun i => if i = 0 then [none] else [some 0])
        ⟨[⟨"w", some 1, some 0, some 0⟩], [some 0], 0, true, 0⟩ 2).batch_finite = false ∧
    (runDriverIdx sq0 (mkCreateOptimizerAdam (.scalar 1) 0) true 2
        (fun i => if i = 0 then [none] else [some 0])
        ⟨[⟨"w", some 1, some 0, some 0⟩], [some 0], 0, true, 0⟩ 2).local_step % 2 = 0 ∧
    (driverStep sq0 (mkCreateOptimizerAdam (.scalar 1) 0) true 2
        (runDriverIdx sq0 (mkCreateOptimizerAdam (.scalar 1) 0) true 2
          (fun i => if i = 0 then [none] else [some 0])
          ⟨[⟨"w", some 1, some 0, some 0⟩], [some 0], 0, true, 0⟩ 2) [some 0]).local_step
      = 1 := by
  have h := claim_C1 sq0 (mkCreateOptimizerAdam (.scalar 1) 0) 2
    (fun i => if i = 0 then [none] else [some 0])
    ⟨[⟨"w", some 1, some 0, some 0⟩], [some 0], 0, true, 0⟩ (by norm_num) (by decide)
    (by
      intro i hi
      by_cases hi0 : i = 0 <;> simp [hi0])
    ⟨0, by norm_num, by simp⟩
  exact ⟨h.1, h.2.1, h.2.2.1, h.2.2.2.1, h.2.2.2.2 [some 0]⟩
